import Mathlib

/-!
Shallow embedding of the CHIP-8 virtual machine implemented in the repository
(files state.rs, instruction.rs, emulator.rs), together with theorems checking
the natural-language specification against it.

Modelling conventions:
* Machine integers are `Nat` with explicit wrap (`% 256` for u8 arithmetic that
  the source performs with wrapping operations, `% 2^64` where the source uses
  usize wrapping_add).
* Memory, the register bank, the framebuffer, and the keypad are functions from
  addresses/indices; a write produces the pointwise-updated function.
* Rust functions returning anyhow::Result are embedded as `Except Err`-valued
  functions when they do not mutate state, and as functions returning
  `State × Option Err` when they mutate state through a mutable reference, so
  that partial mutation before an error is represented faithfully.
-/

namespace Chip8

/-- Pointwise update of a Nat-valued function (a register-bank or memory write). -/
def upd (f : Nat → Nat) (i v : Nat) : Nat → Nat := fun j => if j = i then v else f j

/-- Pointwise update of a Bool-valued function (a framebuffer or keypad write). -/
def updB (f : Nat → Bool) (i : Nat) (v : Bool) : Nat → Bool :=
  fun j => if j = i then v else f j

/-- Error values of the embedded VM, mirroring the anyhow error messages of the
source (each distinct message becomes one constructor, carrying the data the
message interpolates). -/
inductive Err where
  /-- Memory read out of bounds, state.rs Memory.read. -/
  | memReadOOB (addr : Nat)
  /-- Memory write out of bounds, state.rs Memory.write. -/
  | memWriteOOB (addr : Nat)
  /-- ROM too large to fit in memory, state.rs Memory.load_rom. -/
  | romTooLarge
  /-- Sprite data out of bounds, state.rs Memory.read_sprite. -/
  | spriteOOB
  /-- Invalid register index, state.rs Register.from_index. -/
  | invalidRegister (i : Nat)
  /-- Invalid key index, state.rs Key.from_index. -/
  | invalidKey (i : Nat)
  /-- Stack underflow, instruction.rs SubroutineReturn. -/
  | stackUnderflow
  /-- Unsupported opcode or sub-key, instruction.rs decode; carries the raw word. -/
  | unsupported (raw : Nat)
  /-- Unknown opcode, decode catch-all; carries the top nibble (unreachable for
  raw words below 2^16). -/
  | unknownOpcode (op : Nat)
  /-- Program counter out of bounds, emulator.rs Emulator.fetch_instruction. -/
  | pcOOB
deriving DecidableEq, Repr

/-- Total memory size, state.rs MEM_SIZE. -/
def MEM_SIZE : Nat := 4096

/-- Font base address, state.rs FONT_ADDR. -/
def FONT_ADDR : Nat := 0x50

/-- Height of one font glyph, state.rs FONT_HEIGHT. -/
def FONT_HEIGHT : Nat := 5

/-- Program start address, state.rs PC_START_ADDR. -/
def PC_START_ADDR : Nat := 0x200

/-- Display width in pixels, state.rs DISPLAY_WIDTH. -/
def DISPLAY_WIDTH : Nat := 64

/-- Display height in pixels, state.rs DISPLAY_HEIGHT. -/
def DISPLAY_HEIGHT : Nat := 32

/-- Modulus of usize arithmetic (the source targets 64-bit usize). -/
def USIZE_MOD : Nat := 18446744073709551616

/-- Memory.read of state.rs: bounds-checked byte read. -/
def memRead (m : Nat → Nat) (addr : Nat) : Except Err Nat :=
  if addr ≥ MEM_SIZE then .error (.memReadOOB addr) else .ok (m addr)

/-- Memory.write of state.rs: bounds-checked byte write; on error the memory is
not changed (the caller keeps the old function). -/
def memWrite (m : Nat → Nat) (addr v : Nat) : Except Err (Nat → Nat) :=
  if addr ≥ MEM_SIZE then .error (.memWriteOOB addr) else .ok (upd m addr v)

/-- Memory.load_rom of state.rs: copies the ROM bytes to PC_START_ADDR onward,
failing when the ROM does not fit. -/
def loadRom (m : Nat → Nat) (rom : List Nat) : Except Err (Nat → Nat) :=
  if rom.length > MEM_SIZE - PC_START_ADDR then .error .romTooLarge
  else .ok (fun a =>
    if PC_START_ADDR ≤ a ∧ a < PC_START_ADDR + rom.length then rom.getD (a - PC_START_ADDR) 0
    else m a)

/-- Memory.read_sprite of state.rs: reads rows consecutive bytes starting at
index, failing when the slice end exceeds MEM_SIZE. -/
def readSprite (m : Nat → Nat) (index rows : Nat) : Except Err (List Nat) :=
  if index + rows > MEM_SIZE then .error .spriteOOB
  else .ok ((List.range rows).map fun r => m (index + r))

/-- Register.from_index of state.rs: indices 0 through 15 name the registers. -/
def regFromIndex (v : Nat) : Except Err Nat :=
  if v < 16 then .ok v else .error (.invalidRegister v)

/-- Key.from_index of state.rs: indices 0 through 15 name the keys. -/
def keyFromIndex (v : Nat) : Except Err Nat :=
  if v < 16 then .ok v else .error (.invalidKey v)

/-- DecodedInstruction of instruction.rs: the parsed fields of one 16-bit word. -/
structure Decoded where
  opcode : Nat
  x : Nat
  y : Nat
  n : Nat
  nn : Nat
  nnn : Nat
deriving DecidableEq, Repr

/-- DecodedInstruction.new of instruction.rs. -/
def Decoded.ofRaw (raw : Nat) : Decoded where
  opcode := raw >>> 12
  x := (raw >>> 8) &&& 0x0F
  y := (raw >>> 4) &&& 0x0F
  n := raw &&& 0x0F
  nn := raw &&& 0x00FF
  nnn := raw &&& 0x0FFF

/-- The closed set of executable instructions of instruction.rs, one constructor
per struct implementing the Instruction trait, each carrying its decoded fields. -/
inductive Instr where
  | clearScreen
  | subroutineReturn
  | jump (d : Decoded)
  | subroutineCall (d : Decoded)
  | jumpEqX (d : Decoded)
  | jumpNeqX (d : Decoded)
  | jumpXEqY (d : Decoded)
  | jumpXNeqY (d : Decoded)
  | setImmediate (d : Decoded)
  | add (d : Decoded)
  | setXToY (d : Decoded)
  | binaryOr (d : Decoded)
  | binaryAnd (d : Decoded)
  | logicalXor (d : Decoded)
  | binaryAdd (d : Decoded)
  | subtractYFromX (d : Decoded)
  | subtractXFromY (d : Decoded)
  | rightShift (d : Decoded)
  | leftShift (d : Decoded)
  | setIndex (d : Decoded)
  | jumpWithOffset (d : Decoded)
  | random (d : Decoded)
  | display (d : Decoded)
  | skipIfKeyPressed (d : Decoded)
  | skipIfKeyNotPressed (d : Decoded)
  | setVxFromTimer (d : Decoded)
  | setDelayTimer (d : Decoded)
  | setSoundTimer (d : Decoded)
  | addToIndex (d : Decoded)
  | fontChar (d : Decoded)
  | binaryCodedDecimal (d : Decoded)
  | store (d : Decoded)
  | load (d : Decoded)
  | getKey (d : Decoded)
deriving DecidableEq, Repr

/-- The decode function of instruction.rs: dispatch on the top nibble, then on a
sub-field for the ambiguous families 0x0, 0x8, 0xE, 0xF. -/
def decode (raw : Nat) : Except Err Instr :=
  let d := Decoded.ofRaw raw
  match d.opcode with
  | 0x0 =>
    match d.nnn with
    | 0x0E0 => .ok .clearScreen
    | 0x0EE => .ok .subroutineReturn
    | _ => .error (.unsupported raw)
  | 0x1 => .ok (.jump d)
  | 0x2 => .ok (.subroutineCall d)
  | 0x3 => .ok (.jumpEqX d)
  | 0x4 => .ok (.jumpNeqX d)
  | 0x5 => .ok (.jumpXEqY d)
  | 0x6 => .ok (.setImmediate d)
  | 0x7 => .ok (.add d)
  | 0x8 =>
    match d.n with
    | 0x0 => .ok (.setXToY d)
    | 0x1 => .ok (.binaryOr d)
    | 0x2 => .ok (.binaryAnd d)
    | 0x3 => .ok (.logicalXor d)
    | 0x4 => .ok (.binaryAdd d)
    | 0x5 => .ok (.subtractYFromX d)
    | 0x6 => .ok (.rightShift d)
    | 0x7 => .ok (.subtractXFromY d)
    | 0xE => .ok (.leftShift d)
    | _ => .error (.unsupported raw)
  | 0x9 => .ok (.jumpXNeqY d)
  | 0xA => .ok (.setIndex d)
  | 0xB => .ok (.jumpWithOffset d)
  | 0xC => .ok (.random d)
  | 0xD => .ok (.display d)
  | 0xE =>
    match d.nn with
    | 0x9E => .ok (.skipIfKeyPressed d)
    | 0xA1 => .ok (.skipIfKeyNotPressed d)
    | _ => .error (.unsupported raw)
  | 0xF =>
    match d.nn with
    | 0x07 => .ok (.setVxFromTimer d)
    | 0x15 => .ok (.setDelayTimer d)
    | 0x18 => .ok (.setSoundTimer d)
    | 0x1E => .ok (.addToIndex d)
    | 0x29 => .ok (.fontChar d)
    | 0x33 => .ok (.binaryCodedDecimal d)
    | 0x55 => .ok (.store d)
    | 0x65 => .ok (.load d)
    | 0x0A => .ok (.getKey d)
    | _ => .error (.unsupported raw)
  | op => .error (.unknownOpcode op)

/-- Chip8State of state.rs: the observable VM state (the settings and keypad
thread plumbing carry no VM-visible data beyond the pressed-key table, which is
embedded as the keys field). -/
structure Chip8State where
  mem : Nat → Nat
  regs : Nat → Nat
  pc : Nat
  index : Nat
  stack : List Nat
  delay : Nat
  sound : Nat
  disp : Nat → Bool
  keys : Nat → Bool

/-- Body of the inner loop of Chip8State.draw_sprite in state.rs: one sprite
pixel. Out-of-bounds pixels are skipped; an in-bounds pixel XORs onto the
framebuffer and the collision accumulator is overwritten (not OR-ed) with the
conjunction of the current and the new pixel, exactly as the source assigns it. -/
def drawPixel (disp : Nat → Bool) (col : Bool) (px py : Nat) (bitOn : Bool) :
    (Nat → Bool) × Bool :=
  if px ≥ DISPLAY_WIDTH ∨ py ≥ DISPLAY_HEIGHT then (disp, col)
  else
    let idx := py * DISPLAY_WIDTH + px
    let cur := disp idx
    (updB disp idx (xor cur bitOn), cur && bitOn)

/-- Inner bit loop of Chip8State.draw_sprite: the 8 bits of one sprite row,
most significant bit drawn at the smallest x offset. -/
def drawRow (byte x py : Nat) (dc : (Nat → Bool) × Bool) : (Nat → Bool) × Bool :=
  (List.range 8).foldl
    (fun dc bit => drawPixel dc.1 dc.2 (x + bit) py (((byte >>> (7 - bit)) &&& 1) == 1)) dc

/-- Outer row loop of Chip8State.draw_sprite. -/
def drawRows (x y : Nat) (sprite : List Nat) (row : Nat) (dc : (Nat → Bool) × Bool) :
    (Nat → Bool) × Bool :=
  match sprite with
  | [] => dc
  | b :: rest => drawRows x y rest (row + 1) (drawRow b x (y + row) dc)

/-- Chip8State.draw_sprite of state.rs: reads the sprite from memory at the
index register (failing, with no state change, when it runs past memory), then
XOR-draws it and returns the final collision value. -/
def drawSprite (s : Chip8State) (x y : Nat) (rows : Nat) : Except Err (Chip8State × Bool) :=
  match readSprite s.mem s.index rows with
  | .error e => .error e
  | .ok sprite =>
    let dc := drawRows x y sprite 0 (s.disp, false)
    .ok ({ s with disp := dc.1 }, dc.2)

/-- Loop body sequence of the Store instruction (0xF55): registers j = 0..x are
written to memory at index + j, stopping at the first failing write with the
earlier writes retained. -/
def storeLoop (regs : Nat → Nat) (base : Nat) :
    List Nat → (Nat → Nat) → (Nat → Nat) × Option Err
  | [], mem => (mem, none)
  | j :: js, mem =>
    match regFromIndex j with
    | .error e => (mem, some e)
    | .ok r =>
      match memWrite mem (base + j) (regs r) with
      | .error e => (mem, some e)
      | .ok m2 => storeLoop regs base js m2

/-- Loop of the BinaryCodedDecimal instruction (0xF33): enumerated digit values
are written to memory at base + i, stopping at the first failing write. -/
def writeListLoop (base : Nat) : List (Nat × Nat) → (Nat → Nat) → (Nat → Nat) × Option Err
  | [], mem => (mem, none)
  | (i, v) :: rest, mem =>
    match memWrite mem (base + i) v with
    | .error e => (mem, some e)
    | .ok m2 => writeListLoop base rest m2

/-- Loop of the Load instruction (0xF65): registers 0..x receive memory bytes at
index + i, stopping at the first failing read with earlier register writes kept. -/
def loadLoop (mem : Nat → Nat) (base : Nat) :
    List Nat → (Nat → Nat) → (Nat → Nat) × Option Err
  | [], regs => (regs, none)
  | i :: is, regs =>
    match memRead mem (base + i) with
    | .error e => (regs, some e)
    | .ok v =>
      match regFromIndex i with
      | .error e => (regs, some e)
      | .ok r => loadLoop mem base is (upd regs r v)

/-- Helper mirroring the question-mark propagation of Register.from_index in the
instruction bodies: on an invalid index the state is returned unchanged with the
error. -/
def withReg (i : Nat) (s : Chip8State) (k : Nat → Chip8State × Option Err) :
    Chip8State × Option Err :=
  match regFromIndex i with
  | .error e => (s, some e)
  | .ok r => k r

/-- Instruction execution, one case per execute implementation of
instruction.rs. The rand argument supplies the byte that the source obtains
from rand::random for the Random instruction; every other case ignores it.
A case returns the mutated state together with an optional error; mutations
performed before an error are retained, mirroring the mutable-reference
semantics of the source. -/
def exec (rand : Nat) : Instr → Chip8State → Chip8State × Option Err
  | .clearScreen, s => ({ s with disp := fun _ => false }, none)
  | .jump d, s => ({ s with pc := d.nnn }, none)
  | .subroutineCall d, s => ({ s with stack := s.pc :: s.stack, pc := d.nnn }, none)
  | .subroutineReturn, s =>
    match s.stack with
    | a :: rest => ({ s with pc := a, stack := rest }, none)
    | [] => (s, some .stackUnderflow)
  | .jumpEqX d, s =>
    withReg d.x s fun rx =>
      if s.regs rx = d.nn then ({ s with pc := s.pc + 2 }, none) else (s, none)
  | .jumpNeqX d, s =>
    withReg d.x s fun rx =>
      if s.regs rx ≠ d.nn then ({ s with pc := s.pc + 2 }, none) else (s, none)
  | .jumpXEqY d, s =>
    withReg d.x s fun rx => withReg d.y s fun ry =>
      if s.regs rx = s.regs ry then ({ s with pc := s.pc + 2 }, none) else (s, none)
  | .jumpXNeqY d, s =>
    withReg d.x s fun rx => withReg d.y s fun ry =>
      if s.regs rx ≠ s.regs ry then ({ s with pc := s.pc + 2 }, none) else (s, none)
  | .setImmediate d, s =>
    withReg d.x s fun rx => ({ s with regs := upd s.regs rx d.nn }, none)
  | .add d, s =>
    withReg d.x s fun rx =>
      ({ s with regs := upd s.regs rx ((s.regs rx + d.nn) % 256) }, none)
  | .setXToY d, s =>
    withReg d.x s fun rx => withReg d.y s fun ry =>
      ({ s with regs := upd s.regs rx (s.regs ry) }, none)
  | .binaryOr d, s =>
    withReg d.x s fun rx => withReg d.y s fun ry =>
      ({ s with regs := upd (upd s.regs rx (s.regs rx ||| s.regs ry)) 15 0 }, none)
  | .binaryAnd d, s =>
    withReg d.x s fun rx => withReg d.y s fun ry =>
      ({ s with regs := upd (upd s.regs rx (s.regs rx &&& s.regs ry)) 15 0 }, none)
  | .logicalXor d, s =>
    withReg d.x s fun rx => withReg d.y s fun ry =>
      ({ s with regs := upd (upd s.regs rx (s.regs rx ^^^ s.regs ry)) 15 0 }, none)
  | .binaryAdd d, s =>
    withReg d.x s fun rx => withReg d.y s fun ry =>
      let vx := s.regs rx
      let vy := s.regs ry
      let sum := (vx + vy) % 256
      ({ s with regs := upd (upd s.regs rx sum) 15 (if sum < vx then 1 else 0) }, none)
  | .subtractYFromX d, s =>
    withReg d.x s fun rx => withReg d.y s fun ry =>
      let vx := s.regs rx
      let vy := s.regs ry
      if vx ≥ vy then
        ({ s with regs := upd (upd s.regs rx (vx - vy)) 15 1 }, none)
      else
        ({ s with regs := upd (upd s.regs rx ((vx + 256 - vy) % 256)) 15 0 }, none)
  | .subtractXFromY d, s =>
    withReg d.x s fun rx => withReg d.y s fun ry =>
      let vx := s.regs rx
      let vy := s.regs ry
      if vy ≥ vx then
        ({ s with regs := upd (upd s.regs rx (vy - vx)) 15 1 }, none)
      else
        ({ s with regs := upd (upd s.regs rx ((vy + 256 - vx) % 256)) 15 0 }, none)
  | .rightShift d, s =>
    withReg d.x s fun rx => withReg d.y s fun ry =>
      let vy := s.regs ry
      ({ s with regs := upd (upd s.regs rx (vy >>> 1)) 15 (vy &&& 1) }, none)
  | .leftShift d, s =>
    withReg d.x s fun rx => withReg d.y s fun ry =>
      let vy := s.regs ry
      ({ s with regs := upd (upd s.regs rx ((vy <<< 1) % 256)) 15 ((vy &&& 0x80) >>> 7) },
       none)
  | .setIndex d, s => ({ s with index := d.nnn }, none)
  | .jumpWithOffset d, s => ({ s with pc := s.regs 0 + d.nnn }, none)
  | .random d, s =>
    withReg d.x s fun rx =>
      ({ s with regs := upd s.regs rx ((rand % 256) &&& d.nn) }, none)
  | .display d, s =>
    withReg d.x s fun rx => withReg d.y s fun ry =>
      let x := s.regs rx
      let y := s.regs ry
      let s1 := { s with regs := upd s.regs 15 0 }
      match drawSprite s1 (x % DISPLAY_WIDTH) (y % DISPLAY_HEIGHT) d.n with
      | .error e => (s1, some e)
      | .ok (s2, col) =>
        ({ s2 with regs := upd s2.regs 15 (if col then 1 else 0) }, none)
  | .skipIfKeyPressed d, s =>
    withReg d.x s fun rx =>
      match keyFromIndex (s.regs rx) with
      | .error e => (s, some e)
      | .ok k => if s.keys k then ({ s with pc := s.pc + 2 }, none) else (s, none)
  | .skipIfKeyNotPressed d, s =>
    withReg d.x s fun rx =>
      match keyFromIndex (s.regs rx) with
      | .error e => (s, some e)
      | .ok k => if s.keys k then (s, none) else ({ s with pc := s.pc + 2 }, none)
  | .setVxFromTimer d, s =>
    withReg d.x s fun rx => ({ s with regs := upd s.regs rx s.delay }, none)
  | .setDelayTimer d, s =>
    withReg d.x s fun rx => ({ s with delay := s.regs rx }, none)
  | .setSoundTimer d, s =>
    withReg d.x s fun rx => ({ s with sound := s.regs rx }, none)
  | .addToIndex d, s =>
    withReg d.x s fun rx =>
      ({ s with index := (s.index + s.regs rx) % USIZE_MOD }, none)
  | .fontChar d, s =>
    withReg d.x s fun rx =>
      ({ s with index := (s.regs rx &&& 0x0F) * FONT_HEIGHT + FONT_ADDR }, none)
  | .binaryCodedDecimal d, s =>
    withReg d.x s fun rx =>
      let v := s.regs rx
      let r := writeListLoop s.index ([v / 100 % 10, v / 10 % 10, v % 10].enum) s.mem
      ({ s with mem := r.1 }, r.2)
  | .store d, s =>
    match storeLoop s.regs s.index (List.range (d.x + 1)) s.mem with
    | (m2, some e) => ({ s with mem := m2 }, some e)
    | (m2, none) =>
      ({ s with mem := m2, index := (s.index + (d.x + 1)) % USIZE_MOD }, none)
  | .load d, s =>
    match loadLoop s.mem s.index (List.range (d.x + 1)) s.regs with
    | (r2, some e) => ({ s with regs := r2 }, some e)
    | (r2, none) =>
      ({ s with regs := r2, index := (s.index + (d.x + 1)) % USIZE_MOD }, none)
  | .getKey d, s =>
    match (List.range 16).find? (fun i => s.keys i) with
    | some i =>
      withReg d.x s fun rx =>
        match keyFromIndex i with
        | .error e => ({ s with regs := upd s.regs rx i }, some e)
        | .ok k => ({ s with regs := upd s.regs rx i, keys := updB s.keys k false }, none)
    | none => ({ s with pc := s.pc - 2 }, none)

/-- Emulator.fetch_instruction of emulator.rs: bounds-check the program counter,
read the two instruction bytes, advance the counter by 2, and decode. On a
decode failure the counter has already advanced; on the bounds failure nothing
changed. -/
def fetchInstruction (s : Chip8State) : Chip8State × Except Err Instr :=
  if s.pc + 1 ≥ MEM_SIZE then (s, .error .pcOOB)
  else
    match memRead s.mem s.pc with
    | .error e => (s, .error e)
    | .ok hi =>
      match memRead s.mem (s.pc + 1) with
      | .error e => (s, .error e)
      | .ok lo => ({ s with pc := s.pc + 2 }, decode ((hi <<< 8) ||| lo))

/-- One fetch-decode-execute cycle of the main loop of Emulator.run. -/
def cycle (rand : Nat) (s : Chip8State) : Chip8State × Option Err :=
  match fetchInstruction s with
  | (s2, .error e) => (s2, some e)
  | (s2, .ok i) => exec rand i s2

/-- The instruction loop of one frame of Emulator.run: k cycles, stopping at the
first error. The rands list supplies one random byte per cycle. -/
def runCycles (rands : List Nat) (k : Nat) (s : Chip8State) : Chip8State × Option Err :=
  match k with
  | 0 => (s, none)
  | k + 1 =>
    match cycle (rands.headD 0) s with
    | (s2, some e) => (s2, some e)
    | (s2, none) => runCycles rands.tail k s2

/-- The value instructions_per_frame computed by Emulator.run. -/
def instructionsPerFrame (ips frameRate : Nat) : Nat := ips / frameRate

/-- Per-frame body of Emulator.run in emulator.rs: both timers are decremented
with saturating_sub(1) (Nat subtraction saturates identically), then the cycle
loop runs. The source iterates over the inclusive range 0..=instructions_per_frame,
which performs instructionsPerFrame ips frameRate + 1 cycles. -/
def frame (rands : List Nat) (ips frameRate : Nat) (s : Chip8State) :
    Chip8State × Option Err :=
  let s2 := { s with delay := s.delay - 1, sound := s.sound - 1 }
  runCycles rands (instructionsPerFrame ips frameRate + 1) s2

instance : DecidableEq (Except Err Instr) := fun a b =>
  match a, b with
  | .ok x, .ok y => decidable_of_iff (x = y) (by simp)
  | .error e, .error f => decidable_of_iff (e = f) (by simp)
  | .ok _, .error _ => .isFalse (by simp)
  | .error _, .ok _ => .isFalse (by simp)

/-- The opcode/sub-key combinations listed in the dispatch table of the
specification (section 4.3): a decoded word is in the table exactly when its
top nibble and, for the ambiguous families 0x0, 0x8, 0xE and 0xF, its sub-field
match one of the listed rows. This definition follows the table of the spec, to
be compared against the decode function taken from the source. -/
def specDispatchTable (raw : Nat) : Bool :=
  let d := Decoded.ofRaw raw
  (d.opcode == 0x0 && (d.nnn == 0x0E0 || d.nnn == 0x0EE)) ||
  (d.opcode == 0x1) || (d.opcode == 0x2) || (d.opcode == 0x3) || (d.opcode == 0x4) ||
  (d.opcode == 0x5) || (d.opcode == 0x6) || (d.opcode == 0x7) ||
  (d.opcode == 0x8 && (d.n ≤ 7 || d.n == 0xE)) ||
  (d.opcode == 0x9) || (d.opcode == 0xA) || (d.opcode == 0xB) || (d.opcode == 0xC) ||
  (d.opcode == 0xD) ||
  (d.opcode == 0xE && (d.nn == 0x9E || d.nn == 0xA1)) ||
  (d.opcode == 0xF &&
    (d.nn == 0x07 || d.nn == 0x15 || d.nn == 0x18 || d.nn == 0x1E || d.nn == 0x29 ||
     d.nn == 0x33 || d.nn == 0x55 || d.nn == 0x65 || d.nn == 0x0A))

/-- Concrete state for the draw collision-flag analysis: pixel (0,0) is lit, the
index register points at a one-row sprite 0x80 (leftmost bit set), registers are
zero. -/
def c1state : Chip8State where
  mem := fun a => if a == 0x300 then 0x80 else 0
  regs := fun _ => 0
  pc := PC_START_ADDR
  index := 0x300
  stack := []
  delay := 0
  sound := 0
  disp := fun i => i == 0
  keys := fun _ => false

/-- Concrete state for the store-atomicity analysis: index register 4095 so the
second write of a two-register block store lands out of bounds; V0 holds 7. -/
def c2state : Chip8State where
  mem := fun _ => 0
  regs := fun i => if i == 0 then 7 else 0
  pc := PC_START_ADDR
  index := 4095
  stack := []
  delay := 0
  sound := 0
  disp := fun _ => false
  keys := fun _ => false

/-- Memory image holding twelve add-immediate instructions 0x7001 from the
program start address: even addresses 0x200..0x216 hold 0x70, odd ones 0x01. -/
def c3mem : Nat → Nat := fun a =>
  if 0x200 ≤ a ∧ a < 0x200 + 24 then (if a % 2 == 0 then 0x70 else 0x01) else 0

/-- Concrete state for the per-frame instruction-count analysis: the ROM is
twelve copies of 0x7001 (add 1 to V0) and the delay timer starts at 5. -/
def c3state : Chip8State where
  mem := c3mem
  regs := fun _ => 0
  pc := PC_START_ADDR
  index := 0
  stack := []
  delay := 5
  sound := 0
  disp := fun _ => false
  keys := fun _ => false

/-- Concrete state for the double-draw analysis: empty framebuffer, index
register pointing at the one-row sprite 0x01 (rightmost bit set). -/
def c4state : Chip8State where
  mem := fun a => if a == 0x300 then 0x01 else 0
  regs := fun _ => 0
  pc := PC_START_ADDR
  index := 0x300
  stack := []
  delay := 0
  sound := 0
  disp := fun _ => false
  keys := fun _ => false

/-- Concrete state for the blocking key read: keys 3 and 9 are pressed. -/
def c5state : Chip8State where
  mem := fun _ => 0
  regs := fun _ => 0
  pc := PC_START_ADDR
  index := 0
  stack := []
  delay := 0
  sound := 0
  disp := fun _ => false
  keys := fun i => i == 3 || i == 9

/-- Concrete state for the add-with-carry aliasing analysis: VF holds 0xFF and
V0 holds 0x01. -/
def c8state : Chip8State where
  mem := fun _ => 0
  regs := fun i => if i == 15 then 255 else if i == 0 then 1 else 0
  pc := PC_START_ADDR
  index := 0
  stack := []
  delay := 0
  sound := 0
  disp := fun _ => false
  keys := fun _ => false

/-- Concrete state for the call/return round trip: memory holds the call word
0x2300 at the program start and the return word 0x00EE at 0x300. -/
def c9state : Chip8State where
  mem := fun a =>
    if a == 0x200 then 0x23 else if a == 0x201 then 0x00 else
    if a == 0x301 then 0xEE else 0
  regs := fun _ => 0
  pc := PC_START_ADDR
  index := 0
  stack := []
  delay := 0
  sound := 0
  disp := fun _ => false
  keys := fun _ => false

/-- The XOR contribution of one sprite pixel to framebuffer cell i: set when
the pixel is in bounds, lands on cell i, and the sprite bit is on. Used to
characterize the draw loop pointwise. -/
def pixelMask (px py : Nat) (bitOn : Bool) (i : Nat) : Bool :=
  if px ≥ DISPLAY_WIDTH ∨ py ≥ DISPLAY_HEIGHT then false
  else if i = py * DISPLAY_WIDTH + px then bitOn else false

/-- The XOR contribution of the bits of one sprite row, over a list of bit
offsets. -/
def rowMaskAux (byte x py : Nat) (bits : List Nat) (i : Nat) : Bool :=
  match bits with
  | [] => false
  | bit :: rest =>
    xor (pixelMask (x + bit) py (((byte >>> (7 - bit)) &&& 1) == 1) i)
      (rowMaskAux byte x py rest i)

/-- The XOR contribution of a whole sprite to framebuffer cell i. -/
def spriteMask (x y : Nat) (sprite : List Nat) (row : Nat) (i : Nat) : Bool :=
  match sprite with
  | [] => false
  | b :: rest =>
    xor (rowMaskAux b x (y + row) (List.range 8) i) (spriteMask x y rest (row + 1) i)

/-- The sprite bytes a successful read_sprite returns: rows consecutive memory
bytes from the index register. -/
def spriteOf (s : Chip8State) (rows : Nat) : List Nat :=
  (List.range rows).map fun r => s.mem (s.index + r)

/-- C1: evaluating the draw instruction 0xD001 on a state whose pixel (0,0) is
lit, with the index register pointing at the one-row sprite 0x80, erases that
pixel (a set-to-unset transition, hence a collision by the claim) yet finishes
with the flag register equal to 0 and no error: the source overwrites its
collision accumulator at every in-bounds pixel instead of OR-ing into it, so
the flag reports only the last pixel of the scan. -/
theorem c1_draw_erases_pixel_but_flag_zero :
    c1state.disp 0 = true ∧
    (exec 0 (.display (Decoded.ofRaw 0xD001)) c1state).1.disp 0 = false ∧
    (exec 0 (.display (Decoded.ofRaw 0xD001)) c1state).2 = none ∧
    (exec 0 (.display (Decoded.ofRaw 0xD001)) c1state).1.regs 15 = 0 := by
  decide

/-- C3: with the default rates (700 instructions per second, 60 frames per
second) the computed instructions_per_frame is 11, yet one frame of the source
executes 12 fetch-decode-execute cycles, because its loop iterates over the
inclusive range 0..=instructions_per_frame: running one frame over a ROM of
twelve add-immediate instructions 0x7001 leaves V0 = 12. The timers are
decremented once, saturating at zero, before the cycles run. -/
theorem c3_frame_runs_one_extra_cycle :
    (frame [] 700 60 c3state).2 = none ∧
    (frame [] 700 60 c3state).1.regs 0 = 12 ∧
    (frame [] 700 60 c3state).1.delay = 4 ∧
    (frame [] 700 60 c3state).1.sound = 0 ∧
    instructionsPerFrame 700 60 = 11 := by
  decide

/-- C6: a memory write at an address below 4096 succeeds and a subsequent read
of that address returns the written byte; at addresses 4096 and above both the
write and the read fail with the out-of-bounds error carrying the address, the
failed write producing no new memory image. -/
theorem c6_memory_bounds (m : Nat → Nat) (a v : Nat) :
    (a < MEM_SIZE →
      memWrite m a v = .ok (upd m a v) ∧ memRead (upd m a v) a = .ok v) ∧
    (MEM_SIZE ≤ a →
      memWrite m a v = .error (.memWriteOOB a) ∧ memRead m a = .error (.memReadOOB a)) := by
  constructor
  · intro h
    constructor
    · simp [memWrite, Nat.not_le.mpr h]
    · simp [memRead, upd, Nat.not_le.mpr h]
  · intro h
    constructor <;> simp [memWrite, memRead, h]

/-- C6 witness: the round trip at address 5 with byte 7 and the double failure
at address 4096, by the bounds theorem. -/
theorem c6_memory_bounds_witness :
    (memWrite (fun _ => 0) 5 7 = .ok (upd (fun _ => 0) 5 7) ∧
      memRead (upd (fun _ => 0) 5 7) 5 = .ok 7) ∧
    (memWrite (fun _ => 0) 4096 9 = .error (.memWriteOOB 4096) ∧
      memRead (fun _ => 0) 4096 = .error (.memReadOOB 4096)) :=
  ⟨(c6_memory_bounds (fun _ => 0) 5 7).1 (by decide),
   (c6_memory_bounds (fun _ => 0) 4096 9).2 (by decide)⟩

/-- C7: loading a program succeeds exactly when its length fits below
4096 - 0x200, in which case the bytes land at consecutive addresses from 0x200
and the font region 0x50 through 0x9F is untouched; an oversized program is
rejected with the too-large error (and no memory image is produced). -/
theorem c7_load_program (m : Nat → Nat) (rom : List Nat) :
    (rom.length ≤ MEM_SIZE - PC_START_ADDR →
      ∃ m2, loadRom m rom = .ok m2 ∧
        (∀ i, i < rom.length → m2 (PC_START_ADDR + i) = rom.getD i 0) ∧
        (∀ a, FONT_ADDR ≤ a → a ≤ 0x9F → m2 a = m a)) ∧
    (MEM_SIZE - PC_START_ADDR < rom.length → loadRom m rom = .error .romTooLarge) := by
  constructor
  · intro h
    refine ⟨fun a =>
      if PC_START_ADDR ≤ a ∧ a < PC_START_ADDR + rom.length
      then rom.getD (a - PC_START_ADDR) 0 else m a, ?_, ?_, ?_⟩
    · unfold loadRom
      rw [if_neg (by omega)]
    · intro i hi
      have hc : PC_START_ADDR ≤ PC_START_ADDR + i ∧
          PC_START_ADDR + i < PC_START_ADDR + rom.length := by omega
      simp only [if_pos hc, Nat.add_sub_cancel_left]
    · intro a ha1 ha2
      have hc : ¬ (PC_START_ADDR ≤ a ∧ a < PC_START_ADDR + rom.length) := by
        simp only [PC_START_ADDR]
        simp only [FONT_ADDR] at ha1
        omega
      simp only [if_neg hc]
  · intro h
    unfold loadRom
    rw [if_pos (by omega)]

/-- C7 witness: a three-byte program loads at 0x200 leaving the font region
alone, and a 3585-byte program is rejected, by the load theorem. -/
theorem c7_load_program_witness :
    (∃ m2, loadRom (fun _ => 0) [1, 2, 3] = .ok m2 ∧
      (∀ i, i < [1, 2, 3].length → m2 (PC_START_ADDR + i) = [1, 2, 3].getD i 0) ∧
      (∀ a, FONT_ADDR ≤ a → a ≤ 0x9F → m2 a = (fun _ => (0 : Nat)) a)) ∧
    loadRom (fun _ => 0) (List.replicate 3585 0) = .error .romTooLarge :=
  ⟨(c7_load_program (fun _ => 0) [1, 2, 3]).1 (by decide),
   (c7_load_program (fun _ => 0) (List.replicate 3585 0)).2
     (by simp only [List.length_replicate, MEM_SIZE, PC_START_ADDR]; decide)⟩

/-- Helper: find? over a range returns the least satisfying element. -/
theorem find?_range'_eq_some (p : Nat → Bool) :
    ∀ (n s k : Nat), s ≤ k → k < s + n → p k = true →
      (∀ j, s ≤ j → j < k → p j = false) →
      (List.range' s n).find? p = some k := by
  intro n
  induction n with
  | zero => intro s k h1 h2 _ _; omega
  | succ n ih =>
    intro s k h1 h2 hp hmin
    rw [List.range'_succ]
    by_cases hs : s = k
    · subst hs
      exact List.find?_cons_of_pos _ hp
    · rw [List.find?_cons_of_neg _ (by simp [hmin s le_rfl (by omega)])]
      exact ih (s + 1) k (by omega) (by omega) hp fun j hj1 hj2 => hmin j (by omega) hj2

/-- Helper: find? over an initial range finds nothing when the predicate fails
below the bound. -/
theorem find?_range_eq_none (p : Nat → Bool) (n : Nat)
    (h : ∀ j, j < n → p j = false) : (List.range n).find? p = none := by
  rw [List.find?_eq_none]
  intro a ha
  rw [List.mem_range] at ha
  simp [h a ha]

/-- Helper characterizing the store loop over the index list starting at j: the
loop writes the register prefix to consecutive addresses as long as they stay
below MEM_SIZE, halting at the first out-of-bounds address with the earlier
writes retained, and succeeds exactly when every address was in bounds. -/
theorem storeLoop_range' (regs : Nat → Nat) (base : Nat) :
    ∀ (k j : Nat) (mem : Nat → Nat), j + k ≤ 16 →
      (∀ a, (storeLoop regs base (List.range' j k) mem).1 a =
        if base + j ≤ a ∧ a < base + j + min k (MEM_SIZE - (base + j))
        then regs (a - base) else mem a) ∧
      ((storeLoop regs base (List.range' j k) mem).2 = none ↔
        k ≤ MEM_SIZE - (base + j)) := by
  intro k
  induction k with
  | zero =>
    intro j mem _
    refine ⟨fun a => ?_, by simp [storeLoop]⟩
    rw [if_neg (by omega)]
    rfl
  | succ k ih =>
    intro j mem hj
    have hreg : regFromIndex j = .ok j := by
      unfold regFromIndex
      rw [if_pos (by omega)]
    rw [List.range'_succ]
    by_cases hb : base + j ≥ MEM_SIZE
    · have hw : memWrite mem (base + j) (regs j) = .error (.memWriteOOB (base + j)) := by
        unfold memWrite
        rw [if_pos hb]
      refine ⟨fun a => ?_, ?_⟩
      · simp only [storeLoop, hreg, hw]
        rw [if_neg (by omega)]
      · simp only [storeLoop, hreg, hw]
        simp only [MEM_SIZE] at hb ⊢
        constructor
        · intro h; exact absurd h (by simp)
        · omega
    · have hw : memWrite mem (base + j) (regs j) = .ok (upd mem (base + j) (regs j)) := by
        unfold memWrite
        rw [if_neg hb]
      have ihj := ih (j + 1) (upd mem (base + j) (regs j)) (by omega)
      refine ⟨fun a => ?_, ?_⟩
      · simp only [storeLoop, hreg, hw]
        rw [ihj.1 a]
        unfold upd
        split_ifs <;> first | rfl | (congr 1; omega)
      · simp only [storeLoop, hreg, hw]
        rw [ihj.2]
        omega

/-- C2 counterexample: block store 0xF155 (registers V0 and V1) from index
register 4095 returns an out-of-bounds error, yet the failed execution has
already written V0 = 7 into address 4095: the claim that an erroring
instruction leaves the state exactly as before execution is false on this
input. -/
theorem c2_store_error_mutates_memory :
    (exec 0 (.store (Decoded.ofRaw 0xF155)) c2state).2 = some (.memWriteOOB 4096) ∧
    c2state.mem 4095 = 0 ∧
    (exec 0 (.store (Decoded.ofRaw 0xF155)) c2state).1.mem 4095 = 7 := by
  decide

/-- C2 amended: a subroutine return on an empty stack fails with stack
underflow leaving the entire state (the program counter included) unchanged;
but block store and BCD whose write windows cross the end of memory are not
atomic: each returns an error with the in-bounds prefix of its writes applied
(the store puts the corresponding registers at addresses from the index
register up to 4095, the BCD the leading decimal digits of Vx), while the
registers, program counter, index register, stack, both timers, framebuffer
and keypad are unchanged. -/
theorem c2_error_state :
    (∀ s : Chip8State, s.stack = [] →
      exec 0 .subroutineReturn s = (s, some .stackUnderflow)) ∧
    (∀ (s : Chip8State) (d : Decoded), d.x < 16 → MEM_SIZE ≤ s.index + d.x →
      (exec 0 (.store d) s).2 ≠ none ∧
      (∀ a, (exec 0 (.store d) s).1.mem a =
        if s.index ≤ a ∧ a < MEM_SIZE then s.regs (a - s.index) else s.mem a) ∧
      (exec 0 (.store d) s).1.regs = s.regs ∧
      (exec 0 (.store d) s).1.pc = s.pc ∧
      (exec 0 (.store d) s).1.index = s.index ∧
      (exec 0 (.store d) s).1.stack = s.stack ∧
      (exec 0 (.store d) s).1.delay = s.delay ∧
      (exec 0 (.store d) s).1.sound = s.sound ∧
      (exec 0 (.store d) s).1.disp = s.disp ∧
      (exec 0 (.store d) s).1.keys = s.keys) ∧
    (∀ (s : Chip8State) (d : Decoded), d.x < 16 → MEM_SIZE ≤ s.index + 2 →
      (exec 0 (.binaryCodedDecimal d) s).2 ≠ none ∧
      (∀ a, (exec 0 (.binaryCodedDecimal d) s).1.mem a =
        if s.index ≤ a ∧ a < MEM_SIZE
        then [s.regs d.x / 100 % 10, s.regs d.x / 10 % 10,
          s.regs d.x % 10].getD (a - s.index) 0
        else s.mem a) ∧
      (exec 0 (.binaryCodedDecimal d) s).1.regs = s.regs ∧
      (exec 0 (.binaryCodedDecimal d) s).1.pc = s.pc ∧
      (exec 0 (.binaryCodedDecimal d) s).1.index = s.index ∧
      (exec 0 (.binaryCodedDecimal d) s).1.stack = s.stack ∧
      (exec 0 (.binaryCodedDecimal d) s).1.delay = s.delay ∧
      (exec 0 (.binaryCodedDecimal d) s).1.sound = s.sound ∧
      (exec 0 (.binaryCodedDecimal d) s).1.disp = s.disp ∧
      (exec 0 (.binaryCodedDecimal d) s).1.keys = s.keys) := by
  refine ⟨?_, ?_, ?_⟩
  · intro s h
    simp [exec, h]
  · intro s d hx hoob
    have hrange : List.range (d.x + 1) = List.range' 0 (d.x + 1) :=
      List.range_eq_range' (d.x + 1)
    have hL := storeLoop_range' s.regs s.index (d.x + 1) 0 s.mem (by omega)
    have h2 : (storeLoop s.regs s.index (List.range' 0 (d.x + 1)) s.mem).2 ≠ none := by
      intro hcon
      rw [hL.2] at hcon
      omega
    rcases hr : storeLoop s.regs s.index (List.range' 0 (d.x + 1)) s.mem with ⟨m2, e⟩
    rw [hr] at hL h2
    cases e with
    | none => exact absurd rfl h2
    | some e =>
      have hexec : exec 0 (.store d) s = ({ s with mem := m2 }, some e) := by
        simp only [exec, hrange, hr]
      rw [hexec]
      refine ⟨by simp, fun a => ?_, rfl, rfl, rfl, rfl, rfl, rfl, rfl, rfl⟩
      show m2 a = _
      have hma : m2 a = if s.index + 0 ≤ a ∧
          a < s.index + 0 + min (d.x + 1) (MEM_SIZE - (s.index + 0))
          then s.regs (a - s.index) else s.mem a := hL.1 a
      rw [hma]
      split_ifs <;> first | rfl | (exfalso; omega)
  · intro s d hx hoob
    have hreg : regFromIndex d.x = .ok d.x := by
      unfold regFromIndex
      rw [if_pos hx]
    have henum : ∀ x y z : Nat, ([x, y, z] : List Nat).enum = [(0, x), (1, y), (2, z)] :=
      fun _ _ _ => rfl
    by_cases hA : MEM_SIZE ≤ s.index
    · have hw0 : memWrite s.mem (s.index + 0) (s.regs d.x / 100 % 10) =
          .error (.memWriteOOB (s.index + 0)) := by
        unfold memWrite
        rw [if_pos (by omega)]
      have hloop : writeListLoop s.index [(0, s.regs d.x / 100 % 10),
          (1, s.regs d.x / 10 % 10), (2, s.regs d.x % 10)] s.mem =
          (s.mem, some (.memWriteOOB (s.index + 0))) := by
        simp only [writeListLoop, hw0]
      simp only [exec, withReg, hreg, henum, hloop]
      refine ⟨by simp, fun a => ?_, by trivial, by trivial, by trivial, by trivial,
        by trivial, by trivial, by trivial, by trivial⟩
      rw [if_neg (by omega)]
    · by_cases hB : MEM_SIZE ≤ s.index + 1
      · have hw0 : memWrite s.mem (s.index + 0) (s.regs d.x / 100 % 10) =
            .ok (upd s.mem (s.index + 0) (s.regs d.x / 100 % 10)) := by
          unfold memWrite
          rw [if_neg (by omega)]
        have hw1 : memWrite (upd s.mem (s.index + 0) (s.regs d.x / 100 % 10))
            (s.index + 1) (s.regs d.x / 10 % 10) =
            .error (.memWriteOOB (s.index + 1)) := by
          unfold memWrite
          rw [if_pos (by omega)]
        have hloop : writeListLoop s.index [(0, s.regs d.x / 100 % 10),
            (1, s.regs d.x / 10 % 10), (2, s.regs d.x % 10)] s.mem =
            (upd s.mem (s.index + 0) (s.regs d.x / 100 % 10),
              some (.memWriteOOB (s.index + 1))) := by
          simp only [writeListLoop, hw0, hw1]
        simp only [exec, withReg, hreg, henum, hloop]
        refine ⟨by simp, fun a => ?_, by trivial, by trivial, by trivial, by trivial,
          by trivial, by trivial, by trivial, by trivial⟩
        unfold upd
        by_cases h1 : a = s.index + 0
        · rw [if_pos h1, if_pos (by omega)]
          have ha : a - s.index = 0 := by omega
          rw [ha]
          rfl
        · rw [if_neg h1, if_neg (by omega)]
      · have hw0 : memWrite s.mem (s.index + 0) (s.regs d.x / 100 % 10) =
            .ok (upd s.mem (s.index + 0) (s.regs d.x / 100 % 10)) := by
          unfold memWrite
          rw [if_neg (by omega)]
        have hw1 : memWrite (upd s.mem (s.index + 0) (s.regs d.x / 100 % 10))
            (s.index + 1) (s.regs d.x / 10 % 10) =
            .ok (upd (upd s.mem (s.index + 0) (s.regs d.x / 100 % 10)) (s.index + 1)
              (s.regs d.x / 10 % 10)) := by
          unfold memWrite
          rw [if_neg (by omega)]
        have hw2 : memWrite (upd (upd s.mem (s.index + 0) (s.regs d.x / 100 % 10))
            (s.index + 1) (s.regs d.x / 10 % 10)) (s.index + 2) (s.regs d.x % 10) =
            .error (.memWriteOOB (s.index + 2)) := by
          unfold memWrite
          rw [if_pos (by omega)]
        have hloop : writeListLoop s.index [(0, s.regs d.x / 100 % 10),
            (1, s.regs d.x / 10 % 10), (2, s.regs d.x % 10)] s.mem =
            (upd (upd s.mem (s.index + 0) (s.regs d.x / 100 % 10)) (s.index + 1)
              (s.regs d.x / 10 % 10), some (.memWriteOOB (s.index + 2))) := by
          simp only [writeListLoop, hw0, hw1, hw2]
        simp only [exec, withReg, hreg, henum, hloop]
        refine ⟨by simp, fun a => ?_, by trivial, by trivial, by trivial, by trivial,
          by trivial, by trivial, by trivial, by trivial⟩
        unfold upd
        by_cases h2 : a = s.index + 1
        · rw [if_pos h2, if_pos (by omega)]
          have ha : a - s.index = 1 := by omega
          rw [ha]
          rfl
        · rw [if_neg h2]
          by_cases h1 : a = s.index + 0
          · rw [if_pos h1, if_pos (by omega)]
            have ha : a - s.index = 0 := by omega
            rw [ha]
            rfl
          · rw [if_neg h1, if_neg (by omega)]

/-- C2 witness: the empty-stack return, the partial-write block store, and the
partial-write BCD at index 4095, by the error-state theorem. -/
theorem c2_error_state_witness :
    exec 0 .subroutineReturn c2state = (c2state, some .stackUnderflow) ∧
    (exec 0 (.store (Decoded.ofRaw 0xF155)) c2state).2 ≠ none ∧
    (exec 0 (.store (Decoded.ofRaw 0xF155)) c2state).1.pc = c2state.pc ∧
    (exec 0 (.binaryCodedDecimal (Decoded.ofRaw 0xF033)) c2state).2 ≠ none ∧
    (exec 0 (.binaryCodedDecimal (Decoded.ofRaw 0xF033)) c2state).1.delay = c2state.delay :=
  ⟨c2_error_state.1 c2state rfl,
   (c2_error_state.2.1 c2state (Decoded.ofRaw 0xF155) (by decide) (by decide)).1,
   (c2_error_state.2.1 c2state (Decoded.ofRaw 0xF155) (by decide) (by decide)).2.2.2.1,
   (c2_error_state.2.2 c2state (Decoded.ofRaw 0xF033) (by decide) (by decide)).1,
   (c2_error_state.2.2 c2state (Decoded.ofRaw 0xF033)
     (by decide) (by decide)).2.2.2.2.2.2.1⟩

/-- C5: the blocking key read scans keys 0 through 15 in ascending order; when
k is the least pressed key the instruction stores k into Vx and marks k
released, changing nothing else; when no key is pressed it only rewinds the
program counter by 2 (so the same instruction is refetched), leaving every
register, memory cell, and key untouched. -/
theorem c5_blocking_key_read (s : Chip8State) (d : Decoded)
    (hx : d.x < 16) (hpc : 2 ≤ s.pc) :
    (∀ k, k < 16 → s.keys k = true → (∀ j, j < k → s.keys j = false) →
      exec 0 (.getKey d) s =
        ({ s with regs := upd s.regs d.x k, keys := updB s.keys k false }, none)) ∧
    ((∀ j, j < 16 → s.keys j = false) →
      exec 0 (.getKey d) s = ({ s with pc := s.pc - 2 }, none) ∧ s.pc - 2 + 2 = s.pc) := by
  constructor
  · intro k hk hp hmin
    have hf : (List.range 16).find? (fun i => s.keys i) = some k := by
      rw [List.range_eq_range']
      exact find?_range'_eq_some _ 16 0 k (by omega) (by omega) hp fun j _ hj => hmin j hj
    have hkey : keyFromIndex k = .ok k := by
      unfold keyFromIndex
      rw [if_pos hk]
    have hreg : regFromIndex d.x = .ok d.x := by
      unfold regFromIndex
      rw [if_pos hx]
    simp only [exec, hf, withReg, hreg, hkey]
  · intro hnone
    have hf : (List.range 16).find? (fun i => s.keys i) = none :=
      find?_range_eq_none _ 16 hnone
    exact ⟨by simp only [exec, hf], by omega⟩

/-- C5 witness: with keys 3 and 9 pressed, the read stores 3 (the lowest) into
V2 and releases key 3, by the blocking-key-read theorem. -/
theorem c5_blocking_key_read_witness :
    exec 0 (.getKey (Decoded.ofRaw 0xF20A)) c5state =
      ({ c5state with regs := upd c5state.regs 2 3, keys := updB c5state.keys 3 false },
        none) :=
  (c5_blocking_key_read c5state (Decoded.ofRaw 0xF20A) (by decide) (by decide)).1 3
    (by decide) (by decide) (by decide)

/-- C8 counterexample: add-with-carry 0x8F04 with x = 0xF, VF = 0xFF and
V0 = 0x01: the wrapped sum is 0, but after execution Vx (which is VF) holds 1,
the carry flag, because the flag write lands on the same register and
overwrites the stored sum. -/
theorem c8_flag_overwrites_sum_when_x_is_15 :
    (exec 0 (.binaryAdd (Decoded.ofRaw 0x8F04)) c8state).2 = none ∧
    (c8state.regs 15 + c8state.regs 0) % 256 = 0 ∧
    (exec 0 (.binaryAdd (Decoded.ofRaw 0x8F04)) c8state).1.regs 15 = 1 := by
  decide

/-- C8 amended: add-with-carry writes the wrapped 8-bit sum to Vx and then
writes the carry flag (1 exactly when the wrapped sum is numerically below the
original Vx) to VF; for x different from 0xF this leaves Vx holding the sum
and VF the flag, while for x = 0xF the flag write overwrites the sum. -/
theorem c8_add_with_carry (s : Chip8State) (d : Decoded)
    (hx : d.x < 16) (hy : d.y < 16) :
    exec 0 (.binaryAdd d) s =
      ({ s with regs := (upd (upd s.regs d.x ((s.regs d.x + s.regs d.y) % 256)) 15
          (if (s.regs d.x + s.regs d.y) % 256 < s.regs d.x then 1 else 0)) }, none) ∧
    (d.x ≠ 15 →
      (exec 0 (.binaryAdd d) s).1.regs d.x = (s.regs d.x + s.regs d.y) % 256) ∧
    (exec 0 (.binaryAdd d) s).1.regs 15 =
      (if (s.regs d.x + s.regs d.y) % 256 < s.regs d.x then 1 else 0) := by
  have hreg : regFromIndex d.x = .ok d.x := by
    unfold regFromIndex; rw [if_pos hx]
  have hregy : regFromIndex d.y = .ok d.y := by
    unfold regFromIndex; rw [if_pos hy]
  have h : exec 0 (.binaryAdd d) s =
      ({ s with regs := (upd (upd s.regs d.x ((s.regs d.x + s.regs d.y) % 256)) 15
          (if (s.regs d.x + s.regs d.y) % 256 < s.regs d.x then 1 else 0)) }, none) := by
    simp only [exec, withReg, hreg, hregy]
  refine ⟨h, fun hne => ?_, ?_⟩
  · rw [h]
    simp [upd, hne]
  · rw [h]
    simp [upd]

/-- C8 witness: the 0x01 + 0x01 example of the claim, executed as 0x8014 on a
state with V0 = 1 and V1 = 0, by the add-with-carry theorem. -/
theorem c8_add_with_carry_witness :
    (exec 0 (.binaryAdd (Decoded.ofRaw 0x8014)) c8state).1.regs 0 =
      (c8state.regs 0 + c8state.regs 1) % 256 :=
  (c8_add_with_carry c8state (Decoded.ofRaw 0x8014) (by decide) (by decide)).2.1 (by decide)

/-- Helper: one drawn pixel changes the framebuffer pointwise by its mask. -/
theorem drawPixel_fst (disp : Nat → Bool) (col : Bool) (px py : Nat) (bitOn : Bool)
    (i : Nat) :
    (drawPixel disp col px py bitOn).1 i = xor (disp i) (pixelMask px py bitOn i) := by
  simp only [drawPixel, pixelMask]
  split_ifs with h1 h2
  · simp
  · rw [h2]
    simp [updB]
  · simp [updB, h2]

/-- Helper: the bit fold of one sprite row changes the framebuffer pointwise by
the XOR of its pixel masks. -/
theorem drawRow_foldl_fst (byte x py : Nat) :
    ∀ (bits : List Nat) (dc : (Nat → Bool) × Bool) (i : Nat),
      ((bits.foldl (fun dc bit =>
          drawPixel dc.1 dc.2 (x + bit) py (((byte >>> (7 - bit)) &&& 1) == 1)) dc).1 i) =
        xor (dc.1 i) (rowMaskAux byte x py bits i) := by
  intro bits
  induction bits with
  | nil =>
    intro dc i
    simp [rowMaskAux]
  | cons b rest ih =>
    intro dc i
    rw [List.foldl_cons, ih, rowMaskAux]
    rw [drawPixel_fst, Bool.xor_assoc]

/-- Helper: one sprite row changes the framebuffer pointwise by its row mask. -/
theorem drawRow_fst (byte x py : Nat) (dc : (Nat → Bool) × Bool) (i : Nat) :
    (drawRow byte x py dc).1 i = xor (dc.1 i) (rowMaskAux byte x py (List.range 8) i) :=
  drawRow_foldl_fst byte x py (List.range 8) dc i

/-- Helper: the whole draw loop changes the framebuffer pointwise by the sprite
mask, independently of the collision accumulator. -/
theorem drawRows_fst (x y : Nat) :
    ∀ (sprite : List Nat) (row : Nat) (dc : (Nat → Bool) × Bool) (i : Nat),
      (drawRows x y sprite row dc).1 i = xor (dc.1 i) (spriteMask x y sprite row i) := by
  intro sprite
  induction sprite with
  | nil =>
    intro row dc i
    simp [drawRows, spriteMask]
  | cons b rest ih =>
    intro row dc i
    rw [drawRows, spriteMask, ih, drawRow_fst, Bool.xor_assoc]

/-- Helper: XOR-ing the same bit twice restores the original. -/
theorem bool_xor_cancel (a b : Bool) : xor (xor a b) b = a := by
  cases a <;> cases b <;> rfl

/-- Helper characterizing a successful draw instruction: with valid register
nibbles and the sprite inside memory, the instruction zeroes VF, XOR-draws the
sprite onto the framebuffer, then writes the final collision value to VF,
leaving all other fields unchanged. -/
theorem exec_display_eq (s : Chip8State) (d : Decoded)
    (hx : d.x < 16) (hy : d.y < 16) (hsp : s.index + d.n ≤ MEM_SIZE) :
    exec 0 (.display d) s =
      ({ s with
          regs := (upd (upd s.regs 15 0) 15
            (if (drawRows (s.regs d.x % DISPLAY_WIDTH) (s.regs d.y % DISPLAY_HEIGHT)
                (spriteOf s d.n) 0 (s.disp, false)).2 then 1 else 0)),
          disp := (drawRows (s.regs d.x % DISPLAY_WIDTH) (s.regs d.y % DISPLAY_HEIGHT)
            (spriteOf s d.n) 0 (s.disp, false)).1 }, none) := by
  have hreg : regFromIndex d.x = .ok d.x := by
    unfold regFromIndex; rw [if_pos hx]
  have hregy : regFromIndex d.y = .ok d.y := by
    unfold regFromIndex; rw [if_pos hy]
  have hsprite : readSprite s.mem s.index d.n = .ok (spriteOf s d.n) := by
    unfold readSprite spriteOf
    rw [if_neg (by omega)]
  simp only [exec, withReg, hreg, hregy, drawSprite, hsprite]

/-- Helper: the observable components of a successful draw instruction: no
error, memory and index unchanged, the register bank with VF rewritten, and
the framebuffer XOR-ed pointwise with the sprite mask. -/
theorem exec_display_parts (s : Chip8State) (d : Decoded)
    (hx : d.x < 16) (hy : d.y < 16) (hsp : s.index + d.n ≤ MEM_SIZE) :
    (exec 0 (.display d) s).2 = none ∧
    (exec 0 (.display d) s).1.mem = s.mem ∧
    (exec 0 (.display d) s).1.index = s.index ∧
    (exec 0 (.display d) s).1.regs = (upd (upd s.regs 15 0) 15
      (if (drawRows (s.regs d.x % DISPLAY_WIDTH) (s.regs d.y % DISPLAY_HEIGHT)
          (spriteOf s d.n) 0 (s.disp, false)).2 then 1 else 0)) ∧
    (∀ i, (exec 0 (.display d) s).1.disp i =
      xor (s.disp i) (spriteMask (s.regs d.x % DISPLAY_WIDTH)
        (s.regs d.y % DISPLAY_HEIGHT) (spriteOf s d.n) 0 i)) := by
  rw [exec_display_eq s d hx hy hsp]
  refine ⟨rfl, rfl, rfl, rfl, fun i => ?_⟩
  exact drawRows_fst _ _ _ _ (s.disp, false) i

/-- C4 counterexample: drawing the one-byte sprite 0x01 at (0,0) on an empty
framebuffer sets exactly pixel (7,0) with flag 0; repeating the same draw
erases that pixel, but the flag register after the second draw is 1, not 0 as
claimed, because the final scanned pixel collides. -/
theorem c4_second_draw_flag_is_one :
    (exec 0 (.display (Decoded.ofRaw 0xD001)) c4state).1.disp 7 = true ∧
    (exec 0 (.display (Decoded.ofRaw 0xD001)) c4state).1.regs 15 = 0 ∧
    (exec 0 (.display (Decoded.ofRaw 0xD001))
      (exec 0 (.display (Decoded.ofRaw 0xD001)) c4state).1).1.regs 15 = 1 ∧
    (exec 0 (.display (Decoded.ofRaw 0xD001))
      (exec 0 (.display (Decoded.ofRaw 0xD001)) c4state).1).1.disp 7 = false := by
  decide

/-- C4 amended: executing the same draw instruction twice with no intervening
state change restores the framebuffer exactly (double XOR), for every sprite,
origin, and initial framebuffer, provided the coordinate registers are not the
flag register; but the flag after the second draw is the last-pixel collision
value of the source, which is 1 (not 0) for the sprite 0x01 drawn twice at the
origin of an empty framebuffer. -/
theorem c4_double_draw :
    (∀ (s : Chip8State) (d : Decoded), d.x < 16 → d.y < 16 → d.x ≠ 15 → d.y ≠ 15 →
      s.index + d.n ≤ MEM_SIZE →
      (exec 0 (.display d) s).2 = none ∧
      (exec 0 (.display d) (exec 0 (.display d) s).1).2 = none ∧
      (∀ i, (exec 0 (.display d) (exec 0 (.display d) s).1).1.disp i = s.disp i)) ∧
    (exec 0 (.display (Decoded.ofRaw 0xD001))
      (exec 0 (.display (Decoded.ofRaw 0xD001)) c4state).1).1.regs 15 = 1 := by
  constructor
  · intro s d hx hy hx15 hy15 hsp
    obtain ⟨e1, hm1, hi1, hr1, hd1⟩ := exec_display_parts s d hx hy hsp
    have hsp2 : (exec 0 (.display d) s).1.index + d.n ≤ MEM_SIZE := by
      rw [hi1]
      exact hsp
    obtain ⟨e2, hm2, hi2, hr2, hd2⟩ :=
      exec_display_parts (exec 0 (.display d) s).1 d hx hy hsp2
    refine ⟨e1, e2, fun i => ?_⟩
    have hX : (exec 0 (.display d) s).1.regs d.x = s.regs d.x := by
      rw [hr1]
      simp [upd, hx15]
    have hY : (exec 0 (.display d) s).1.regs d.y = s.regs d.y := by
      rw [hr1]
      simp [upd, hy15]
    have hspr : spriteOf (exec 0 (.display d) s).1 d.n = spriteOf s d.n := by
      unfold spriteOf
      rw [hm1, hi1]
    rw [hd2 i, hX, hY, hspr, hd1 i]
    exact bool_xor_cancel (s.disp i) _
  · decide

/-- C4 witness: the double draw of sprite 0x01 at the origin errors in neither
pass and restores the empty framebuffer, by the double-draw theorem. -/
theorem c4_double_draw_witness :
    (exec 0 (.display (Decoded.ofRaw 0xD001)) c4state).2 = none ∧
    (exec 0 (.display (Decoded.ofRaw 0xD001))
      (exec 0 (.display (Decoded.ofRaw 0xD001)) c4state).1).2 = none ∧
    (∀ i, (exec 0 (.display (Decoded.ofRaw 0xD001))
      (exec 0 (.display (Decoded.ofRaw 0xD001)) c4state).1).1.disp i = c4state.disp i) :=
  c4_double_draw.1 c4state (Decoded.ofRaw 0xD001) (by decide) (by decide) (by decide)
    (by decide) (by decide)

/-- Helper: recomposing a high byte shifted left by 8 with a low byte below 256
is plain positional arithmetic. -/
theorem shiftLeft8_or (a b : Nat) (hb : b < 256) : (a <<< 8) ||| b = 256 * a + b := by
  have hb2 : b < 2 ^ 8 := by
    simpa using hb
  rw [Nat.shiftLeft_eq, Nat.mul_comm a (2 ^ 8), ← Nat.mul_add_lt_is_or hb2 a]

/-- C9: a subroutine call to address nnn (the two bytes of 0x2nnn at the
program counter) followed by the matching return (0x00EE at nnn), each cycle
performing the normal two-byte fetch advance, pushes the post-fetch counter,
jumps to nnn, and the return restores the counter to its pre-call value plus
2, with the stack back to its original contents. -/
theorem c9_call_return_round_trip (s : Chip8State) (nnn : Nat)
    (hn : nnn < 4096) (hpc : s.pc + 1 < MEM_SIZE) (hret : nnn + 1 < MEM_SIZE)
    (hhi : s.mem s.pc = 32 + nnn / 256) (hlo : s.mem (s.pc + 1) = nnn % 256)
    (hr0 : s.mem nnn = 0x00) (hr1 : s.mem (nnn + 1) = 0xEE) :
    (cycle 0 s).2 = none ∧
    (cycle 0 s).1.pc = nnn ∧
    (cycle 0 s).1.stack = (s.pc + 2) :: s.stack ∧
    (cycle 0 (cycle 0 s).1).2 = none ∧
    (cycle 0 (cycle 0 s).1).1.pc = s.pc + 2 ∧
    (cycle 0 (cycle 0 s).1).1.stack = s.stack := by
  have hraw : ((32 + nnn / 256) <<< 8) ||| (nnn % 256) = 8192 + nnn := by
    rw [shiftLeft8_or _ _ (by omega)]
    omega
  have hop : (Decoded.ofRaw (8192 + nnn)).opcode = 2 := by
    show (8192 + nnn) >>> 12 = 2
    rw [Nat.shiftRight_eq_div_pow]
    norm_num
    omega
  have hnnn : (Decoded.ofRaw (8192 + nnn)).nnn = nnn := by
    show (8192 + nnn) &&& 0x0FFF = nnn
    have h12 : (0x0FFF : Nat) = 2 ^ 12 - 1 := by norm_num
    rw [h12, Nat.and_pow_two_sub_one_eq_mod]
    omega
  have hdec : decode (8192 + nnn) = .ok (.subroutineCall (Decoded.ofRaw (8192 + nnn))) := by
    simp only [decode, hop]
  have hread1 : memRead s.mem s.pc = .ok (32 + nnn / 256) := by
    unfold memRead
    rw [if_neg (by omega), hhi]
  have hread2 : memRead s.mem (s.pc + 1) = .ok (nnn % 256) := by
    unfold memRead
    rw [if_neg (by omega), hlo]
  have hc1 : cycle 0 s = ({ s with pc := nnn, stack := (s.pc + 2) :: s.stack }, none) := by
    unfold cycle fetchInstruction
    rw [if_neg (by omega)]
    simp only [hread1, hread2, hraw, hdec]
    simp only [exec, hnnn]
  rw [hc1]
  refine ⟨rfl, rfl, rfl, ?_, ?_, ?_⟩ <;>
  · have hread3 : memRead s.mem nnn = .ok 0 := by
      unfold memRead
      rw [if_neg (by omega), hr0]
    have hread4 : memRead s.mem (nnn + 1) = .ok 0xEE := by
      unfold memRead
      rw [if_neg (by omega), hr1]
    have hc2 : cycle 0 ({ s with pc := nnn, stack := (s.pc + 2) :: s.stack } : Chip8State) =
        ({ s with pc := s.pc + 2, stack := s.stack }, none) := by
      unfold cycle fetchInstruction
      dsimp only
      rw [if_neg (by omega)]
      simp only [hread3, hread4]
      have hdec2 : decode ((0 <<< 8) ||| 0xEE) = .ok .subroutineReturn := by decide
      simp only [hdec2, exec]
    rw [hc2]

/-- C9 witness: the concrete call 0x2300 at 0x200 and return 0x00EE at 0x300,
by the round-trip theorem. -/
theorem c9_call_return_round_trip_witness :
    (cycle 0 c9state).1.pc = 0x300 ∧
    (cycle 0 (cycle 0 c9state).1).1.pc = 0x202 ∧
    (cycle 0 (cycle 0 c9state).1).1.stack = [] := by
  have h := c9_call_return_round_trip c9state 0x300 (by decide) (by decide) (by decide)
    (by decide) (by decide) (by decide) (by decide)
  exact ⟨h.2.1, h.2.2.2.2.1, h.2.2.2.2.2⟩

set_option maxHeartbeats 2000000 in
/-- C10: for every 16-bit word, decoding succeeds exactly for the opcode and
sub-key combinations of the dispatch table, and every combination outside the
table is rejected with the unsupported-opcode error carrying the raw word. -/
theorem c10_decode_dispatch :
    ∀ raw, raw < 65536 →
      ((∃ i, decode raw = .ok i) ↔ specDispatchTable raw = true) ∧
      (specDispatchTable raw = false → decode raw = .error (.unsupported raw)) := by
  intro raw h
  have hcases : raw >>> 12 = 0 ∨ raw >>> 12 = 1 ∨ raw >>> 12 = 2 ∨ raw >>> 12 = 3 ∨
      raw >>> 12 = 4 ∨ raw >>> 12 = 5 ∨ raw >>> 12 = 6 ∨ raw >>> 12 = 7 ∨
      raw >>> 12 = 8 ∨ raw >>> 12 = 9 ∨ raw >>> 12 = 10 ∨ raw >>> 12 = 11 ∨
      raw >>> 12 = 12 ∨ raw >>> 12 = 13 ∨ raw >>> 12 = 14 ∨ raw >>> 12 = 15 := by
    rw [Nat.shiftRight_eq_div_pow]
    omega
  have hB : specDispatchTable raw = false → decode raw = .error (.unsupported raw) := by
    intro ht
    simp only [specDispatchTable, Decoded.ofRaw, Bool.or_eq_false_iff, Bool.and_eq_false_iff,
      beq_eq_false_iff_ne, ne_eq, decide_eq_false_iff_not] at ht
    rcases hcases with h0|h0|h0|h0|h0|h0|h0|h0|h0|h0|h0|h0|h0|h0|h0|h0 <;>
      simp only [decode, Decoded.ofRaw, h0] <;>
      first
        | (exfalso; omega)
        | (split <;> first | rfl | (exfalso; omega))
  have hA : specDispatchTable raw = true → ∃ i, decode raw = Except.ok i := by
    intro ht
    simp only [specDispatchTable, Decoded.ofRaw, Bool.or_eq_true, Bool.and_eq_true,
      beq_iff_eq, decide_eq_true_eq] at ht
    rcases hcases with h0|h0|h0|h0|h0|h0|h0|h0|h0|h0|h0|h0|h0|h0|h0|h0 <;>
      simp only [decode, Decoded.ofRaw, h0] <;>
      first
        | exact ⟨_, rfl⟩
        | (have hsub : raw &&& 4095 = 224 ∨ raw &&& 4095 = 238 := by omega
           rcases hsub with h1 | h1 <;> simp only [h1] <;> exact ⟨_, rfl⟩)
        | (have hsub : raw &&& 15 = 0 ∨ raw &&& 15 = 1 ∨ raw &&& 15 = 2 ∨ raw &&& 15 = 3 ∨
             raw &&& 15 = 4 ∨ raw &&& 15 = 5 ∨ raw &&& 15 = 6 ∨ raw &&& 15 = 7 ∨
             raw &&& 15 = 14 := by omega
           rcases hsub with h1|h1|h1|h1|h1|h1|h1|h1|h1 <;> simp only [h1] <;> exact ⟨_, rfl⟩)
        | (have hsub : raw &&& 255 = 158 ∨ raw &&& 255 = 161 := by omega
           rcases hsub with h1 | h1 <;> simp only [h1] <;> exact ⟨_, rfl⟩)
        | (have hsub : raw &&& 255 = 7 ∨ raw &&& 255 = 21 ∨ raw &&& 255 = 24 ∨
             raw &&& 255 = 30 ∨ raw &&& 255 = 41 ∨ raw &&& 255 = 51 ∨ raw &&& 255 = 85 ∨
             raw &&& 255 = 101 ∨ raw &&& 255 = 10 := by omega
           rcases hsub with h1|h1|h1|h1|h1|h1|h1|h1|h1 <;> simp only [h1] <;> exact ⟨_, rfl⟩)
  refine ⟨⟨fun hok => ?_, hA⟩, hB⟩
  cases htb : specDispatchTable raw with
  | true => rfl
  | false =>
    rcases hok with ⟨i, hi⟩
    rw [hB htb] at hi
    exact absurd hi (by simp)


/-- C10 witness: the raw word 0xFFFF is outside the table and decoding it
fails with the unsupported-opcode error carrying 0xFFFF, by the dispatch
theorem. -/
theorem c10_decode_dispatch_witness :
    decode 0xFFFF = .error (.unsupported 0xFFFF) :=
  (c10_decode_dispatch 0xFFFF (by decide)).2 (by decide)

end Chip8
